import Mathlib

/-!
Shallow embedding of the sus-vscode test runner (src/runner.ts).

The runner drives one test-host subprocess per session.  It seeds a pending
test mapping (JS object, identity string to test handle), sends a run request,
consumes newline-delimited JSON events through onData, and on process exit
resolves or rejects a finished promise; run() awaits that promise, swallows
rejections, skips every test still pending, and ends the test run.

JS objects with string keys preserve insertion order, so the tests mapping is
embedded as an association list.  Test handles (vscode.TestItem) are opaque
here and embedded as Nat.  Every observable call on the vscode.TestRun
reporting surface is recorded in order in a report log.
-/

namespace Sus

/-- JavaScript truthiness of an optional string field: present and nonempty
(undefined and the empty string are falsy). -/
def strTruthy : Option String → Bool
  | some s => !(s == "")
  | none => false

/-- JavaScript truthiness of an optional boolean field. -/
def boolTruthy : Option Bool → Bool
  | some b => b
  | none => false

/-- Wire location object: path, line (1-based on the wire), optional column. -/
structure LocationData where
  path : String
  line : Int
  column : Option Int
deriving DecidableEq

/-- Reporting-side location (vscode.Location): path plus a 0-based position. -/
structure Location where
  path : String
  line : Int
  column : Int
deriving DecidableEq

/-- Wire message object: optional text body, source location, and
actual/expected pair. -/
structure MessageData where
  text : Option String := none
  location : Option LocationData := none
  actual : Option String := none
  expected : Option String := none
deriving DecidableEq

/-- Value held by a message field on the wire: a structured object or a bare
string (the finished event carries a plain string message). -/
inductive JSMessage where
  | obj (m : MessageData)
  | str (s : String)
deriving DecidableEq

/-- Property access data.text on a dynamic value: undefined on strings. -/
def textOf : JSMessage → Option String
  | .obj m => m.text
  | .str _ => none

/-- Property access data.location on a dynamic value. -/
def locationOf : JSMessage → Option LocationData
  | .obj m => m.location
  | .str _ => none

/-- Property access data.actual on a dynamic value. -/
def actualOf : JSMessage → Option String
  | .obj m => m.actual
  | .str _ => none

/-- Property access data.expected on a dynamic value. -/
def expectedOf : JSMessage → Option String
  | .obj m => m.expected
  | .str _ => none

/-- JavaScript truthiness of a message value: objects are always truthy,
strings are truthy when nonempty. -/
def msgTruthy : JSMessage → Bool
  | .obj _ => true
  | .str s => !(s == "")

/-- Truthiness of an optional message field. -/
def msgFieldTruthy : Option JSMessage → Bool
  | some m => msgTruthy m
  | none => false

/-- String coercion of a message field value, as used by the finished branch
(appendOutput of data.message). -/
def messageFieldText : Option JSMessage → String
  | some (.str s) => s
  | some (.obj _) => "[object Object]"
  | none => "undefined"

/-- Embeds messageBodyFor: returns data.text when truthy, otherwise
undefined. -/
def messageBodyFor (m : JSMessage) : Option String :=
  if strTruthy (textOf m) then textOf m else none

/-- Embeds the JS expression data.location.column || 0: a falsy column (absent
or zero) yields 0. -/
def columnOrZero : Option Int → Int
  | some c => if c == 0 then 0 else c
  | none => 0

/-- Embeds locationFor: when data.location is present, build a Location from
its path, line - 1 and column || 0; otherwise undefined. -/
def locationFor (m : JSMessage) : Option Location :=
  match locationOf m with
  | some l => some ⟨l.path, l.line - 1, columnOrZero l.column⟩
  | none => none

/-- Reporting-side message (vscode.TestMessage): diff-style when built via
TestMessage.diff, plain otherwise; both carry an optional location. -/
inductive TestMessage where
  | diff (body : Option String) (actual expected : String) (location : Option Location)
  | plain (body : Option String) (location : Option Location)
deriving DecidableEq

/-- Embeds messageFor: diff-style message when data.actual and data.expected
are both truthy, else a plain message; the location is attached in both
branches. -/
def messageFor (m : JSMessage) : TestMessage :=
  let body := messageBodyFor m
  if strTruthy (actualOf m) && strTruthy (expectedOf m) then
    .diff body ((actualOf m).getD "") ((expectedOf m).getD "") (locationFor m)
  else
    .plain body (locationFor m)

/-- Decoded wire event record.  Exactly the fields onData and its helpers
read; absent fields are none (undefined). -/
structure EventData where
  started : Option String := none
  inform : Option String := none
  passed : Option String := none
  failed : Option String := none
  errored : Option String := none
  finished : Option Bool := none
  coverage : Option String := none
  duration : Option Int := none
  message : Option JSMessage := none
  messages : Option (List JSMessage) := none
  counts : Option (List (Option Int)) := none
deriving DecidableEq

/-- Embeds messagesFor: a truthy data.message yields a single resolved
message; otherwise a present data.messages array (arrays are truthy even when
empty) is mapped through messageFor; otherwise no messages. -/
def messagesFor (e : EventData) : List TestMessage :=
  if msgFieldTruthy e.message then
    [messageFor (e.message.getD (.str ""))]
  else
    match e.messages with
    | some ms => ms.map messageFor
    | none => []

/-- One statement-coverage entry (vscode.StatementCoverage): hit count and a
0-based position. -/
structure StatementCoverage where
  executed : Int
  line : Int
  column : Int
deriving DecidableEq

/-- Embeds the loop of addCoverage: walk the counts array with its index
lineNumber; a slot that is not null pushes an entry at position
(lineNumber - 1, 0); a null slot is skipped. -/
def coverageDetails : List (Option Int) → Nat → List StatementCoverage
  | [], _ => []
  | some count :: rest, lineNumber =>
      ⟨count, (lineNumber : Int) - 1, 0⟩ :: coverageDetails rest (lineNumber + 1)
  | none :: rest, lineNumber => coverageDetails rest (lineNumber + 1)

/-- One observable call on the vscode.TestRun reporting surface, or a
session-level effect, recorded in order. -/
inductive Report where
  | outputR (text : String)
  | startedR (t : Option Nat)
  | informOut (m : TestMessage) (t : Option Nat)
  | passedR (t : Option Nat) (duration : Option Int)
  | failedR (t : Option Nat) (msgs : List TestMessage) (duration : Option Int)
  | erroredR (t : Option Nat) (msgs : List TestMessage) (duration : Option Int)
  | skippedR (t : Nat)
  | coverageR (path : String) (details : List StatementCoverage)
  | stdinEndR
  | endedR
deriving DecidableEq

/-- Runner state: the pending tests mapping and the report log so far. -/
structure RunnerState where
  tests : List (String × Nat)
  reports : List Report
deriving DecidableEq

/-- Object property read this.tests[identity]. -/
def lookupTest (id : String) : List (String × Nat) → Option Nat
  | [] => none
  | p :: rest => if p.1 = id then some p.2 else lookupTest id rest

/-- Object property removal delete this.tests[identity]. -/
def eraseTest (id : String) : List (String × Nat) → List (String × Nat)
  | [] => []
  | p :: rest => if p.1 = id then rest else p :: eraseTest id rest

/-- Embeds popTest: read the handle for the identity, delete the key, return
the handle (undefined when the identity is not present). -/
def popTest (id : String) (tests : List (String × Nat)) :
    Option Nat × List (String × Nat) :=
  (lookupTest id tests, eraseTest id tests)

/-- Splits character data at every \r\n or \n boundary (the JS regex \r?\n);
a lone \r does not split. -/
def splitLinesAux : List Char → List (List Char)
  | [] => [[]]
  | '\r' :: '\n' :: rest => [] :: splitLinesAux rest
  | '\n' :: rest => [] :: splitLinesAux rest
  | c :: rest =>
      match splitLinesAux rest with
      | [] => [[c]]
      | l :: ls => (c :: l) :: ls

/-- Embeds the body of appendOutput: split the text on \r?\n and rejoin the
lines with \r\n. -/
def normalizeOutput (text : String) : String :=
  String.intercalate "\r\n" ((splitLinesAux text.data).map String.mk)

/-- Embeds appendOutput: record the normalized text on the output channel. -/
def appendOutput (st : RunnerState) (text : String) : RunnerState :=
  { st with reports := st.reports ++ [.outputR (normalizeOutput text)] }

/-- Embeds skipRemainingTests: report skipped for every handle still in the
tests mapping, in insertion order. -/
def skipRemainingTests (st : RunnerState) : RunnerState :=
  { st with reports := st.reports ++ st.tests.map (fun p => .skippedR p.2) }

/-- Embeds addCoverage: build the statement-coverage list from data.counts
and attach a file-coverage record for data.coverage. -/
def addCoverage (e : EventData) (st : RunnerState) : RunnerState :=
  { st with reports := st.reports ++
      [.coverageR (e.coverage.getD "") (coverageDetails (e.counts.getD []) 0)] }

/-- Embeds inform: look the test handle up (without removal) and append each
resolved message as output associated with that handle and its location. -/
def inform (e : EventData) (st : RunnerState) : RunnerState :=
  let test := lookupTest (e.inform.getD "") st.tests
  { st with reports := st.reports ++
      (messagesFor e).map (fun m => .informOut m test) }

/-- Embeds onData: the if/else-if dispatch on the truthiness of the event
tag fields of the record, in source order started, inform, passed, failed,
errored, finished, coverage. -/
def onData (e : EventData) (st : RunnerState) : RunnerState :=
  if strTruthy e.started then
    { st with reports := st.reports ++
        [.startedR (lookupTest (e.started.getD "") st.tests)] }
  else if strTruthy e.inform then
    inform e st
  else if strTruthy e.passed then
    let p := popTest (e.passed.getD "") st.tests
    { st with tests := p.2, reports := st.reports ++ [.passedR p.1 e.duration] }
  else if strTruthy e.failed then
    let p := popTest (e.failed.getD "") st.tests
    { st with tests := p.2, reports := st.reports ++ [.failedR p.1 (messagesFor e) e.duration] }
  else if strTruthy e.errored then
    let p := popTest (e.errored.getD "") st.tests
    { st with tests := p.2, reports := st.reports ++ [.erroredR p.1 (messagesFor e) e.duration] }
  else if boolTruthy e.finished then
    let st := appendOutput st (messageFieldText e.message)
    { st with reports := st.reports ++ [.stdinEndR] }
  else if strTruthy e.coverage then
    addCoverage e st
  else
    st

/-- String interpolation of the exit code: null prints as null. -/
def exitCodeText : Option Int → String
  | some c => toString c
  | none => "null"

/-- Embeds the exit handler of the finished promise: append the exited-with
line to the output channel, then resolve when the code equals 0 and reject
with the error message otherwise (a null code also rejects). -/
def onExit (code : Option Int) (st : RunnerState) :
    RunnerState × Except String Unit :=
  let st := appendOutput st ("Test host exited with code " ++ exitCodeText code ++ "\r\n")
  if code = some 0 then
    (st, .ok ())
  else
    (st, .error ("Test host exited with code " ++ exitCodeText code))

/-- Embeds testRun.end() at the end of run(). -/
def endRun (st : RunnerState) : RunnerState :=
  { st with reports := st.reports ++ [.endedR] }

/-- State and outcome of one session before the epilogue: header line, every
decoded event through onData in wire order, then the exit handler. -/
def runStates (tests : List (String × Nat)) (name : String)
    (events : List EventData) (code : Option Int) :
    RunnerState × Except String Unit :=
  let st := appendOutput ⟨tests, []⟩ ("Running tests in " ++ name ++ "...\r\n")
  let st := events.foldl (fun s e => onData e s) st
  onExit code st

/-- Final state of a whole session: after the outcome is observed, the
epilogue skips the remaining tests and ends the run. -/
def runSession (tests : List (String × Nat)) (name : String)
    (events : List EventData) (code : Option Int) : RunnerState :=
  endRun (skipRemainingTests (runStates tests name events code).1)

/-- Embeds run(): await the finished promise inside try/catch — a rejection
is caught and only logged — and the finally block unconditionally skips the
remaining tests and ends the run, so run() itself never fails. -/
def run (tests : List (String × Nat)) (name : String)
    (events : List EventData) (code : Option Int) :
    Except String RunnerState :=
  match runStates tests name events code with
  | (st, .ok _) => .ok (endRun (skipRemainingTests st))
  | (st, .error _) => .ok (endRun (skipRemainingTests st))

/-- The seven recognized event tags, in the priority order of the onData
if/else-if chain. -/
inductive Tag where
  | started
  | inform
  | passed
  | failed
  | errored
  | finished
  | coverage
deriving DecidableEq

/-- Tag selected by the onData dispatch: the first tag field of the record
that is truthy, in source order; none when every tag field is falsy. -/
def dispatchTag (e : EventData) : Option Tag :=
  if strTruthy e.started then some .started
  else if strTruthy e.inform then some .inform
  else if strTruthy e.passed then some .passed
  else if strTruthy e.failed then some .failed
  else if strTruthy e.errored then some .errored
  else if boolTruthy e.finished then some .finished
  else if strTruthy e.coverage then some .coverage
  else none

/-- Effect of one dispatched tag on the runner state; branch bodies as in
onData. -/
def applyTag (t : Tag) (e : EventData) (st : RunnerState) : RunnerState :=
  match t with
  | .started =>
      { st with reports := st.reports ++
          [.startedR (lookupTest (e.started.getD "") st.tests)] }
  | .inform => inform e st
  | .passed =>
      let p := popTest (e.passed.getD "") st.tests
      { st with tests := p.2, reports := st.reports ++ [.passedR p.1 e.duration] }
  | .failed =>
      let p := popTest (e.failed.getD "") st.tests
      { st with tests := p.2, reports := st.reports ++ [.failedR p.1 (messagesFor e) e.duration] }
  | .errored =>
      let p := popTest (e.errored.getD "") st.tests
      { st with tests := p.2, reports := st.reports ++ [.erroredR p.1 (messagesFor e) e.duration] }
  | .finished =>
      let st := appendOutput st (messageFieldText e.message)
      { st with reports := st.reports ++ [.stdinEndR] }
  | .coverage => addCoverage e st

/-- Identity removed from the pending mapping by this event: the identity of
a dispatched passed, failed or errored tag, none otherwise. -/
def terminalTag (e : EventData) : Option String :=
  match dispatchTag e with
  | some .passed => some (e.passed.getD "")
  | some .failed => some (e.failed.getD "")
  | some .errored => some (e.errored.getD "")
  | _ => none

/-- Identities of the terminal events of a session, in wire order. -/
def terminalTags (events : List EventData) : List String :=
  events.filterMap terminalTag

/-- Keys of the pending tests mapping, in insertion order. -/
def keysOf (tests : List (String × Nat)) : List String :=
  tests.map Prod.fst

/-- Effect of one event on the pending tests mapping alone: a terminal event
deletes its identity, every other event leaves the mapping unchanged. -/
def testsStep (tests : List (String × Nat)) (e : EventData) :
    List (String × Nat) :=
  match terminalTag e with
  | some id => eraseTest id tests
  | none => tests

/-- Pending tests mapping left after every event of the session. -/
def finalTests (tests : List (String × Nat)) (events : List EventData) :
    List (String × Nat) :=
  events.foldl testsStep tests

/-- Handle argument of a terminal report (passed, failed or errored), none
for any other report. -/
def reportTerminalHandle : Report → Option (Option Nat)
  | .passedR t _ => some t
  | .failedR t _ _ => some t
  | .erroredR t _ _ => some t
  | _ => none

/-- Handle of a skipped report, none for any other report. -/
def skippedOf : Report → Option Nat
  | .skippedR t => some t
  | _ => none

/-- Handles reported skipped, in report order. -/
def skippedHandles (reports : List Report) : List Nat :=
  reports.filterMap skippedOf

/-- Handle arguments of the terminal reports, in report order. -/
def terminalHandles (reports : List Report) : List (Option Nat) :=
  reports.filterMap reportTerminalHandle

/-- The onData chain applies exactly the branch selected by dispatchTag. -/
theorem onData_eq_dispatch (e : EventData) (st : RunnerState) :
    onData e st = (match dispatchTag e with
      | none => st
      | some t => applyTag t e st) := by
  simp only [onData, dispatchTag]
  split_ifs <;> rfl

/-- Deleting a key that is not present leaves the mapping unchanged. -/
theorem eraseTest_of_lookup_none (id : String) (l : List (String × Nat))
    (h : lookupTest id l = none) : eraseTest id l = l := by
  induction l with
  | nil => rfl
  | cons p rest ih =>
      by_cases hp : p.1 = id
      · simp [lookupTest, hp] at h
      · simp [lookupTest, hp] at h
        simp [eraseTest, hp, ih h]

/-- The assembled coverage list has one entry per slot that is not null. -/
theorem coverageDetails_length (counts : List (Option Int)) (n : Nat) :
    (coverageDetails counts n).length = counts.countP (fun c => c.isSome) := by
  induction counts generalizing n with
  | nil => simp [coverageDetails]
  | cons c rest ih =>
      cases c <;> simp [coverageDetails, ih, List.countP_cons]

/-- The hit counts of the assembled coverage list are exactly the non-null
slot values, in order. -/
theorem coverageDetails_executed (counts : List (Option Int)) (n : Nat) :
    (coverageDetails counts n).map (fun s => s.executed) = counts.filterMap id := by
  induction counts generalizing n with
  | nil => simp [coverageDetails]
  | cons c rest ih =>
      cases c <;> simp [coverageDetails, ih]

/-- A non-null slot at relative index i of a walk started at lineNumber n is
assembled at position line (n + i) - 1. -/
theorem coverageDetails_mem (counts : List (Option Int)) (n i : Nat) (c : Int)
    (h : counts[i]? = some (some c)) :
    (⟨c, ((n + i : Nat) : Int) - 1, 0⟩ : StatementCoverage) ∈ coverageDetails counts n := by
  induction counts generalizing n i with
  | nil => simp at h
  | cons c0 rest ih =>
      cases i with
      | zero =>
          simp at h
          subst h
          simp [coverageDetails]
      | succ j =>
          simp at h
          have hm := ih (n + 1) j h
          have harith : n + 1 + j = n + (j + 1) := by omega
          rw [harith] at hm
          cases c0 with
          | none => exact hm
          | some v => exact List.mem_cons_of_mem _ hm

/-- Every assembled coverage entry has column 0. -/
theorem coverageDetails_column (counts : List (Option Int)) (n : Nat) :
    ∀ s ∈ coverageDetails counts n, s.column = 0 := by
  induction counts generalizing n with
  | nil => simp [coverageDetails]
  | cons c rest ih =>
      cases c with
      | none => simpa [coverageDetails] using ih (n + 1)
      | some k =>
          intro s hs
          simp [coverageDetails] at hs
          rcases hs with hs | hs
          · rw [hs]
          · exact ih (n + 1) s hs

/-- C5: the assembled coverage record contains exactly one statement entry
per non-null slot of the counts array and none for a null slot; the counts
[null, 3, 0, null, 5] yield exactly 3 entries. -/
theorem coverage_keeps_exactly_nonnull_slots (counts : List (Option Int)) :
    (coverageDetails counts 0).length = counts.countP (fun c => c.isSome) ∧
    (coverageDetails counts 0).map (fun s => s.executed) = counts.filterMap id ∧
    (coverageDetails [none, some 3, some 0, none, some 5] 0).length = 3 :=
  ⟨coverageDetails_length counts 0, coverageDetails_executed counts 0, by decide⟩

/-- C6: a non-null hit count at 0-based array index i is placed at reporting
line i - 1 (so index 0 lands at line -1), and every coverage position has
column 0. -/
theorem coverage_offset_minus_one (counts : List (Option Int)) (i : Nat) (c : Int)
    (h : counts[i]? = some (some c)) :
    (⟨c, (i : Int) - 1, 0⟩ : StatementCoverage) ∈ coverageDetails counts 0 ∧
    (∀ s ∈ coverageDetails counts 0, s.column = 0) := by
  constructor
  · simpa using coverageDetails_mem counts 0 i c h
  · exact coverageDetails_column counts 0

/-- Witness for C6 at counts [some 7], index 0: the entry sits at line -1. -/
theorem coverage_offset_minus_one_witness :
    ((⟨7, ((0 : Nat) : Int) - 1, 0⟩ : StatementCoverage) ∈ coverageDetails [some 7] 0) ∧
    (∀ s ∈ coverageDetails [some 7] 0, s.column = 0) :=
  coverage_offset_minus_one [some 7] 0 7 rfl

/-- C8: a wire location is converted by subtracting 1 from its 1-based line;
the reporting column is the wire column when present and 0 when absent; an
entry without a location yields none. -/
theorem location_conversion (m : MessageData) (l : LocationData) :
    (m.location = some l → locationFor (.obj m) =
        some ⟨l.path, l.line - 1, columnOrZero l.column⟩) ∧
    (∀ c : Int, columnOrZero (some c) = c) ∧
    columnOrZero none = 0 ∧
    (m.location = none → locationFor (.obj m) = none) := by
  refine ⟨fun h => ?_, fun c => ?_, rfl, fun h => ?_⟩
  · simp [locationFor, locationOf, h]
  · by_cases hc : c = 0 <;> simp [columnOrZero, hc]
  · simp [locationFor, locationOf, h]

/-- Witness for C8: wire line 10 with absent column maps to reporting
position (9, 0). -/
theorem location_conversion_witness :
    locationFor (.obj { text := some "t", location := some ⟨"file.rb", 10, none⟩ }) =
      some ⟨"file.rb", 9, 0⟩ := by
  have h := (location_conversion
    { text := some "t", location := some ⟨"file.rb", 10, none⟩ } ⟨"file.rb", 10, none⟩).1 rfl
  exact h.trans (by decide)

/-- C7: a message entry with truthy actual and expected resolves to a
diff-style message built from its body, actual and expected; an entry
carrying only text resolves to a plain message; both carry the location
resolved from the optional location field of the entry. -/
theorem message_presentation (m : MessageData) :
    (∀ a ex, m.actual = some a → a ≠ "" → m.expected = some ex → ex ≠ "" →
      messageFor (.obj m) =
        .diff (messageBodyFor (.obj m)) a ex (locationFor (.obj m))) ∧
    (m.actual = none → m.expected = none →
      messageFor (.obj m) =
        .plain (messageBodyFor (.obj m)) (locationFor (.obj m))) := by
  constructor
  · intro a ex ha hna he hne
    simp [messageFor, actualOf, expectedOf, ha, he, strTruthy, hna, hne]
  · intro ha he
    simp [messageFor, actualOf, expectedOf, ha, he, strTruthy]

/-- Witness for C7: an entry with actual x and expected y resolves to a diff
message; the same entry with only text resolves to a plain message. -/
theorem message_presentation_witness :
    messageFor (.obj { text := some "body", actual := some "x", expected := some "y" }) =
      .diff (some "body") "x" "y" none ∧
    messageFor (.obj { text := some "body" }) = .plain (some "body") none := by
  constructor
  · have h := (message_presentation
      { text := some "body", actual := some "x", expected := some "y" }).1
      "x" "y" rfl (by decide) rfl (by decide)
    exact h.trans (by decide)
  · have h := (message_presentation { text := some "body" }).2 rfl rfl
    exact h.trans (by decide)

/-- C2: the finished promise resolves exactly when the exit code is 0 and
rejects carrying the code otherwise (a missing code also rejects); in both
branches the exited-with line is appended to the output channel. -/
theorem finished_signal_exit_code (code : Option Int) (st : RunnerState) :
    ((onExit code st).2 = Except.ok () ↔ code = some 0) ∧
    (code ≠ some 0 →
      (onExit code st).2 =
        Except.error ("Test host exited with code " ++ exitCodeText code)) ∧
    (onExit code st).1.reports = st.reports ++
      [Report.outputR (normalizeOutput
        ("Test host exited with code " ++ exitCodeText code ++ "\r\n"))] := by
  unfold onExit appendOutput
  by_cases h : code = some 0 <;> simp [h]

/-- Witness for C2 at a missing (null) exit code: the signal rejects carrying
the code. -/
theorem finished_signal_exit_code_witness :
    (onExit none ⟨[], []⟩).2 =
      Except.error ("Test host exited with code " ++ exitCodeText none) :=
  (finished_signal_exit_code none ⟨[], []⟩).2.1 (by decide)

/-- C9: a terminal event for an identity no longer pending does not throw:
popTest yields an undefined handle and leaves the mapping unchanged, and the
result is reported against that undefined handle. -/
theorem double_terminal_no_throw (st : RunnerState) (e : EventData) (id : String)
    (h : terminalTag e = some id) (h2 : lookupTest id st.tests = none) :
    popTest id st.tests = (none, st.tests) ∧
    (onData e st).tests = st.tests ∧
    ∃ r, (onData e st).reports = st.reports ++ [r] ∧
      reportTerminalHandle r = some none := by
  have herase := eraseTest_of_lookup_none id st.tests h2
  refine ⟨by simp [popTest, h2, herase], ?_⟩
  rw [onData_eq_dispatch]
  unfold terminalTag at h
  rcases hd : dispatchTag e with _ | t
  · rw [hd] at h; cases h
  · rw [hd] at h
    cases t with
    | passed =>
        have hid : e.passed.getD "" = id := by simpa using h
        refine ⟨?_, Report.passedR none e.duration, ?_, rfl⟩ <;>
          simp [applyTag, popTest, hid, herase, h2]
    | failed =>
        have hid : e.failed.getD "" = id := by simpa using h
        refine ⟨?_, Report.failedR none (messagesFor e) e.duration, ?_, rfl⟩ <;>
          simp [applyTag, popTest, hid, herase, h2]
    | errored =>
        have hid : e.errored.getD "" = id := by simpa using h
        refine ⟨?_, Report.erroredR none (messagesFor e) e.duration, ?_, rfl⟩ <;>
          simp [applyTag, popTest, hid, herase, h2]
    | started => cases h
    | inform => cases h
    | finished => cases h
    | coverage => cases h

/-- Witness for C9: a passed event for an identity absent from the pending
mapping keeps the mapping and reports against the undefined handle. -/
theorem double_terminal_no_throw_witness :
    popTest "a" ([("b", 2)] : List (String × Nat)) = (none, [("b", 2)]) ∧
    (onData { passed := some "a" } ⟨[("b", 2)], []⟩).tests = [("b", 2)] ∧
    ∃ r, (onData { passed := some "a" } ⟨[("b", 2)], []⟩).reports = [] ++ [r] ∧
      reportTerminalHandle r = some none :=
  double_terminal_no_throw ⟨[("b", 2)], []⟩ { passed := some "a" } "a"
    (by decide) (by decide)

/-- C10: onData applies at most one transition, selected by truthiness of
the tag fields in priority order started, inform, passed, failed, errored,
finished, coverage; a record with every tag field falsy changes nothing. -/
theorem dispatch_single_transition (e : EventData) (st : RunnerState) :
    onData e st = (match dispatchTag e with
      | none => st
      | some t => applyTag t e st) ∧
    (dispatchTag e = none → onData e st = st) := by
  refine ⟨onData_eq_dispatch e st, fun h => ?_⟩
  rw [onData_eq_dispatch e st, h]

/-- Witness for C10: a record whose tag fields are all set but falsy (empty
identities, finished false) leaves the state unchanged. -/
theorem dispatch_single_transition_witness :
    onData { started := some "", inform := some "", passed := some "",
             failed := some "", errored := some "", finished := some false,
             coverage := some "" } ⟨[("a", 1)], []⟩ = ⟨[("a", 1)], []⟩ :=
  (dispatch_single_transition _ _).2 (by decide)

/-- Processing one event changes the pending mapping exactly as testsStep. -/
theorem tests_onData (e : EventData) (st : RunnerState) :
    (onData e st).tests = testsStep st.tests e := by
  rw [onData_eq_dispatch]
  unfold testsStep terminalTag
  rcases hd : dispatchTag e with _ | t
  · rfl
  · cases t <;> simp [applyTag, inform, addCoverage, appendOutput, popTest]

/-- Processing one event never reports a test skipped. -/
theorem skippedHandles_onData (e : EventData) (st : RunnerState) :
    skippedHandles (onData e st).reports = skippedHandles st.reports := by
  rw [onData_eq_dispatch]
  rcases hd : dispatchTag e with _ | t
  · rfl
  · cases t <;> simp [applyTag, inform, addCoverage, appendOutput,
      skippedHandles, skippedOf, List.filterMap_append, List.filterMap_map]

/-- Processing one event appends exactly one terminal report when its
dispatched tag is terminal, and none otherwise. -/
theorem terminalHandles_onData_len (e : EventData) (st : RunnerState) :
    (terminalHandles (onData e st).reports).length =
      (terminalHandles st.reports).length +
        (if (terminalTag e).isSome then 1 else 0) := by
  rw [onData_eq_dispatch]
  unfold terminalTag
  rcases hd : dispatchTag e with _ | t
  · simp
  · cases t <;> simp [applyTag, inform, addCoverage, appendOutput,
      terminalHandles, reportTerminalHandle, List.filterMap_append, List.filterMap_map]

/-- The pending mapping after the event stream is the fold of testsStep. -/
theorem tests_foldl (events : List EventData) (st : RunnerState) :
    (events.foldl (fun s e => onData e s) st).tests =
      events.foldl testsStep st.tests := by
  induction events generalizing st with
  | nil => rfl
  | cons e evs ih =>
      simp only [List.foldl_cons]
      rw [ih, tests_onData]

/-- The event stream itself never reports a test skipped. -/
theorem skippedHandles_foldl (events : List EventData) (st : RunnerState) :
    skippedHandles (events.foldl (fun s e => onData e s) st).reports =
      skippedHandles st.reports := by
  induction events generalizing st with
  | nil => rfl
  | cons e evs ih =>
      simp only [List.foldl_cons]
      rw [ih, skippedHandles_onData]

/-- The event stream appends one terminal report per terminal event. -/
theorem terminalHandles_foldl_len (events : List EventData) (st : RunnerState) :
    (terminalHandles (events.foldl (fun s e => onData e s) st).reports).length =
      (terminalHandles st.reports).length + (terminalTags events).length := by
  induction events generalizing st with
  | nil => simp [terminalTags]
  | cons e evs ih =>
      simp only [List.foldl_cons]
      rw [ih, terminalHandles_onData_len]
      unfold terminalTags
      rw [List.filterMap_cons]
      cases h : terminalTag e with
      | none => simp [h]
      | some id =>
          simp [h]
          omega

/-- The exit handler leaves the pending mapping unchanged. -/
theorem tests_onExit (code : Option Int) (st : RunnerState) :
    (onExit code st).1.tests = st.tests := by
  unfold onExit appendOutput
  split_ifs <;> rfl

/-- The exit handler reports no test skipped. -/
theorem skippedHandles_onExit (code : Option Int) (st : RunnerState) :
    skippedHandles (onExit code st).1.reports = skippedHandles st.reports := by
  unfold onExit appendOutput
  split_ifs <;>
    simp [skippedHandles, skippedOf, List.filterMap_append]

/-- The exit handler appends no terminal report. -/
theorem terminalHandles_onExit (code : Option Int) (st : RunnerState) :
    terminalHandles (onExit code st).1.reports = terminalHandles st.reports := by
  unfold onExit appendOutput
  split_ifs <;>
    simp [terminalHandles, reportTerminalHandle, List.filterMap_append]

/-- Pending mapping held when the exit handler has run: exactly finalTests. -/
theorem runStates_tests (tests : List (String × Nat)) (name : String)
    (events : List EventData) (code : Option Int) :
    (runStates tests name events code).1.tests = finalTests tests events := by
  unfold runStates
  rw [tests_onExit, tests_foldl]
  rfl

/-- No skipped report exists before the epilogue. -/
theorem runStates_skipped (tests : List (String × Nat)) (name : String)
    (events : List EventData) (code : Option Int) :
    skippedHandles (runStates tests name events code).1.reports = [] := by
  unfold runStates
  rw [skippedHandles_onExit, skippedHandles_foldl]
  rfl

/-- Terminal reports before the epilogue: one per terminal event. -/
theorem runStates_terminal_len (tests : List (String × Nat)) (name : String)
    (events : List EventData) (code : Option Int) :
    (terminalHandles (runStates tests name events code).1.reports).length =
      (terminalTags events).length := by
  unfold runStates
  rw [terminalHandles_onExit, terminalHandles_foldl_len]
  simp [appendOutput, terminalHandles, reportTerminalHandle]

/-- Skipping the pending mapping contributes exactly its handles. -/
theorem skippedHandles_map_skip (l : List (String × Nat)) :
    skippedHandles (l.map (fun p => Report.skippedR p.2)) = l.map Prod.snd := by
  induction l with
  | nil => rfl
  | cons p rest ih =>
      simp [skippedHandles, skippedOf, List.filterMap_cons] at ih ⊢
      exact ih

/-- The skipped reports of a whole session are exactly the handles still
pending after the event stream, in insertion order. -/
theorem runSession_skipped (tests : List (String × Nat)) (name : String)
    (events : List EventData) (code : Option Int) :
    skippedHandles (runSession tests name events code).reports =
      (finalTests tests events).map Prod.snd := by
  unfold runSession endRun skipRemainingTests
  simp only [skippedHandles, List.filterMap_append]
  rw [← skippedHandles, ← skippedHandles, ← skippedHandles,
    runStates_skipped, skippedHandles_map_skip, runStates_tests]
  simp [skippedHandles, skippedOf]

/-- The epilogue appends no terminal report. -/
theorem runSession_terminal_len (tests : List (String × Nat)) (name : String)
    (events : List EventData) (code : Option Int) :
    (terminalHandles (runSession tests name events code).reports).length =
      (terminalTags events).length := by
  unfold runSession endRun skipRemainingTests
  simp only [terminalHandles, List.filterMap_append, List.filterMap_map,
    List.length_append]
  have h1 : List.filterMap (reportTerminalHandle ∘ fun p => Report.skippedR p.2)
      (runStates tests name events code).1.tests = [] := by
    simp [Function.comp, reportTerminalHandle]
  have h2 := runStates_terminal_len tests name events code
  unfold terminalHandles at h2
  simp [h1, reportTerminalHandle, h2]

/-- Deleting a key from the mapping erases its first occurrence among the
keys. -/
theorem keysOf_eraseTest (id : String) (l : List (String × Nat)) :
    keysOf (eraseTest id l) = (keysOf l).erase id := by
  induction l with
  | nil => rfl
  | cons p rest ih =>
      by_cases hid : p.1 = id
      · simp [eraseTest, keysOf, hid]
      · have hbne : ¬(p.1 == id) := by simpa using hid
        simp only [eraseTest, if_neg hid, keysOf, List.map_cons,
          List.erase_cons_tail hbne]
        rw [← keysOf, ← keysOf, ih]

/-- Keys left after the whole event stream: the initial keys whose identity
never carried a dispatched terminal event (initial keys duplicate-free). -/
theorem keysOf_finalTests (events : List EventData) (tests : List (String × Nat))
    (h : (keysOf tests).Nodup) :
    keysOf (finalTests tests events) =
      (keysOf tests).filter (fun k => !((terminalTags events).contains k)) := by
  induction events generalizing tests with
  | nil =>
      simp only [finalTests, List.foldl_nil, terminalTags, List.filterMap_nil]
      symm
      refine List.filter_eq_self.mpr ?_
      intro a _
      rfl
  | cons e evs ih =>
      have hstep : finalTests tests (e :: evs) = finalTests (testsStep tests e) evs := rfl
      rw [hstep]
      cases ht : terminalTag e with
      | none =>
          have hts : testsStep tests e = tests := by simp [testsStep, ht]
          rw [hts, ih tests h]
          unfold terminalTags
          rw [List.filterMap_cons, ht]
      | some id =>
          have hts : testsStep tests e = eraseTest id tests := by simp [testsStep, ht]
          rw [hts]
          have hkeys : keysOf (eraseTest id tests) =
              (keysOf tests).filter (fun k => k != id) := by
            rw [keysOf_eraseTest]
            exact h.erase_eq_filter id
          have h2 : (keysOf (eraseTest id tests)).Nodup := by
            rw [hkeys]; exact h.filter _
          rw [ih _ h2, hkeys, List.filter_filter]
          unfold terminalTags
          rw [List.filterMap_cons, ht]
          apply List.filter_congr
          intro a _
          simp only [List.contains_cons, bne, Bool.not_or]
          exact Bool.and_comm _ _

/-- C1: with duplicate-free initial identities and at most one terminal
event per identity, the terminal-reported identities (those whose terminal
event found the identity pending) together with the end-of-session skipped
identities are a permutation of the initial Pending Test Set, without
duplicates; every still-pending identity is reported skipped exactly once,
and each terminal event produces exactly one terminal report. -/
theorem pending_set_reported_exactly_once (tests : List (String × Nat))
    (name : String) (events : List EventData) (code : Option Int)
    (h1 : (keysOf tests).Nodup) (h2 : (terminalTags events).Nodup) :
    (((terminalTags events).filter (fun id => (keysOf tests).contains id)) ++
        keysOf (finalTests tests events)).Perm (keysOf tests) ∧
    (((terminalTags events).filter (fun id => (keysOf tests).contains id)) ++
        keysOf (finalTests tests events)).Nodup ∧
    skippedHandles (runSession tests name events code).reports =
      (finalTests tests events).map Prod.snd ∧
    (terminalHandles (runSession tests name events code).reports).length =
      (terminalTags events).length := by
  have hfinal := keysOf_finalTests events tests h1
  have hA : ((terminalTags events).filter (fun id => (keysOf tests).contains id)).Perm
      ((keysOf tests).filter (fun k => (terminalTags events).contains k)) := by
    refine (List.perm_ext_iff_of_nodup (h2.filter _) (h1.filter _)).mpr ?_
    intro a
    simp only [List.mem_filter, List.elem_eq_mem, decide_eq_true_eq]
    exact and_comm
  have hB : ((keysOf tests).filter (fun k => (terminalTags events).contains k) ++
      (keysOf tests).filter (fun k => !((terminalTags events).contains k))).Perm
        (keysOf tests) :=
    List.filter_append_perm _ _
  refine ⟨?_, ?_, runSession_skipped tests name events code,
    runSession_terminal_len tests name events code⟩
  · rw [hfinal]
    exact (hA.append_right _).trans hB
  · rw [hfinal]
    refine List.Nodup.append (h2.filter _) (h1.filter _) ?_
    intro a haT haK
    rw [List.mem_filter] at haT haK
    have hmemT : a ∈ terminalTags events := haT.1
    have hnot : ¬ a ∈ terminalTags events := by simpa using haK.2
    exact hnot hmemT

/-- Witness for C1, the §8 scenario: identities a, b; a passes, the host
exits with code 1; a is terminal-reported, b is skipped. -/
theorem pending_set_reported_exactly_once_witness :
    (((terminalTags [{ started := some "a" },
        { passed := some "a", duration := some 12 }]).filter
          (fun id => (keysOf [("a", 1), ("b", 2)]).contains id)) ++
        keysOf (finalTests [("a", 1), ("b", 2)]
          [{ started := some "a" }, { passed := some "a", duration := some 12 }])).Perm
      (keysOf [("a", 1), ("b", 2)]) ∧
    (((terminalTags [{ started := some "a" },
        { passed := some "a", duration := some 12 }]).filter
          (fun id => (keysOf [("a", 1), ("b", 2)]).contains id)) ++
        keysOf (finalTests [("a", 1), ("b", 2)]
          [{ started := some "a" }, { passed := some "a", duration := some 12 }])).Nodup ∧
    skippedHandles (runSession [("a", 1), ("b", 2)] "ws"
        [{ started := some "a" }, { passed := some "a", duration := some 12 }]
        (some 1)).reports =
      (finalTests [("a", 1), ("b", 2)]
        [{ started := some "a" }, { passed := some "a", duration := some 12 }]).map Prod.snd ∧
    (terminalHandles (runSession [("a", 1), ("b", 2)] "ws"
        [{ started := some "a" }, { passed := some "a", duration := some 12 }]
        (some 1)).reports).length =
      (terminalTags [{ started := some "a" },
        { passed := some "a", duration := some 12 }]).length :=
  pending_set_reported_exactly_once [("a", 1), ("b", 2)] "ws"
    [{ started := some "a" }, { passed := some "a", duration := some 12 }]
    (some 1) (by decide) (by decide)

/-- C4: an identity removed by a terminal event is absent from the pending
mapping at session end, and the skipped reports of the session are exactly
the handles of that final mapping — so the identity is never reported
skipped. -/
theorem removed_identity_never_skipped (tests : List (String × Nat))
    (name : String) (events : List EventData) (code : Option Int) (id : String)
    (h1 : (keysOf tests).Nodup) (ht : id ∈ terminalTags events) :
    id ∉ keysOf (finalTests tests events) ∧
    skippedHandles (runSession tests name events code).reports =
      (finalTests tests events).map Prod.snd := by
  refine ⟨?_, runSession_skipped tests name events code⟩
  rw [keysOf_finalTests events tests h1]
  intro hmem
  rw [List.mem_filter] at hmem
  have hnot : ¬ id ∈ terminalTags events := by simpa using hmem.2
  exact hnot ht

/-- Witness for C4: identity a receives a passed event and is neither
pending at session end nor reported skipped; only the handle of b is skipped. -/
theorem removed_identity_never_skipped_witness :
    "a" ∉ keysOf (finalTests [("a", 1), ("b", 2)]
      [{ passed := some "a", duration := some 3 }]) ∧
    skippedHandles (runSession [("a", 1), ("b", 2)] "ws"
        [{ passed := some "a", duration := some 3 }] (some 0)).reports =
      (finalTests [("a", 1), ("b", 2)]
        [{ passed := some "a", duration := some 3 }]).map Prod.snd :=
  removed_identity_never_skipped [("a", 1), ("b", 2)] "ws"
    [{ passed := some "a", duration := some 3 }] (some 0) "a"
    (by decide) (by decide)

/-- C3: run never raises to its caller — it returns the epilogue state in
the success and in the failure case alike, and that state always contains
the skipped report of every still-pending handle followed by the final
end of the run. -/
theorem run_never_raises (tests : List (String × Nat)) (name : String)
    (events : List EventData) (code : Option Int) :
    run tests name events code = .ok (runSession tests name events code) ∧
    (∃ pre, (runSession tests name events code).reports =
        pre ++ (finalTests tests events).map (fun p => Report.skippedR p.2) ++
          [Report.endedR]) := by
  constructor
  · unfold run runSession runStates
    rcases h : onExit code (List.foldl (fun s e => onData e s)
        (appendOutput ⟨tests, []⟩ ("Running tests in " ++ name ++ "...\r\n")) events) with
      ⟨st, oc⟩
    cases oc <;> simp [h]
  · refine ⟨(runStates tests name events code).1.reports, ?_⟩
    unfold runSession endRun skipRemainingTests
    rw [runStates_tests]

end Sus
